import Mathlib

/-!
Shallow embedding of the lokomat_fes core: the stride-based stimulation
decision engine (src/lokomat_fes/planner/stimulation.py) and the Rehastim
stimulation event log (src/server/lokomat_fes/rehastim/data.py).

Time instants and amplitudes are modelled as rationals; Python floats are
only copied and subtracted by the code under study, never rounded, so the
value-level behaviour is the same.  `datetime.now()` is impure, so every
operation that reads the clock takes the current time `now` as an explicit
argument.  Fallible Python code (raise) is modelled with `Except String`.
-/

namespace LokomatFes

namespace Planner

/-- Per-channel transition of `StrideBasedStimulation.stimulation_duration`
(stimulation.py lines 60-73): given the predicate output `should_stimulate`
for the channel and the stored `is_stimulating` flag, return the emitted
command (`some 0` start, `some (-1)` stop, `none` no-op) together with the
updated stored flag.  The final `else` mirrors the `raise ValueError` of the
source. -/
def channelStep (should_stimulate is_stimulating : Bool) : Except String (Option Int × Bool) :=
  if should_stimulate && !is_stimulating then .ok (some 0, true)
  else if should_stimulate && is_stimulating then .ok (none, is_stimulating)
  else if !should_stimulate && is_stimulating then .ok (some (-1), false)
  else if !should_stimulate && !is_stimulating then .ok (none, is_stimulating)
  else .error "This should never happen"

/-- `self._are_stimulating` right after `StrideBasedStimulation.__init__`
(stimulation.py line 46): the empty list. -/
def initAreStimulating : List Bool := []

/-- The lazy sizing step of `stimulation_duration` (stimulation.py lines
54-55): `if not self._are_stimulating: self._are_stimulating = [False] * len(should_stimulate_channels)`. -/
def initializeState (st should : List Bool) : List Bool :=
  if st.isEmpty then List.replicate should.length false else st

/-- The `for i in range(len(should_stimulate_channels))` loop of
`stimulation_duration` (stimulation.py lines 58-75).  `i` is the current
loop index; reading `self._are_stimulating[i]` out of range raises, as the
Python `list` indexing does. -/
def stimLoop : List Bool → List Bool → Nat → Except String (List (Option Int) × List Bool)
  | [], st, _ => .ok ([], st)
  | w :: ws, st, i =>
    match st[i]? with
    | none => .error "IndexError: list index out of range"
    | some was =>
      match channelStep w was with
      | .error e => .error e
      | .ok (cmd, b) => (stimLoop ws (st.set i b) (i + 1)).map fun r => (cmd :: r.1, r.2)

/-- `StrideBasedStimulation.stimulation_duration` (stimulation.py lines
48-75).  The gait analyser and the condition function are external
collaborators; their composite result — one boolean per channel — is the
argument `should`.  `st` is the stored `self._are_stimulating` before the
call; the result pairs the returned command list with the stored state
after the call. -/
def stimulation_duration (should st : List Bool) : Except String (List (Option Int) × List Bool) :=
  stimLoop should (initializeState st should) 0

/-- The command the transition table emits for a `(want, was)` pair, read
off §4.1 of the spec: `none` when nothing changes, `some 0` to start,
`some (-1)` to stop. -/
def cmdOf (want was : Bool) : Option Int :=
  if want = was then none else if want then some 0 else some (-1)

theorem channelStep_eq (w b : Bool) : channelStep w b = .ok (cmdOf w b, w) := by
  cases w <;> cases b <;> rfl

theorem drop_set_of_lt {α : Type} (l : List α) (i : Nat) (a : α) :
    ∀ j, i < j → (l.set i a).drop j = l.drop j := by
  induction l generalizing i with
  | nil => intro j _; simp
  | cons x xs ih =>
    intro j hij
    cases i with
    | zero =>
      cases j with
      | zero => omega
      | succ j => simp
    | succ i =>
      cases j with
      | zero => omega
      | succ j => simpa using ih i j (by omega)

theorem take_set_succ {α : Type} (l : List α) (i : Nat) (a : α) (h : i < l.length) :
    (l.set i a).take (i + 1) = l.take i ++ [a] := by
  induction l generalizing i with
  | nil => simp at h
  | cons x xs ih =>
    cases i with
    | zero => simp
    | succ i =>
      simp only [List.set_cons_succ, List.take_succ_cons, List.cons_append]
      exact congrArg (x :: ·) (ih i (by simpa using h))

theorem drop_eq_cons_of_lt {α : Type} (l : List α) (i : Nat) (h : i < l.length) :
    l.drop i = l.get ⟨i, h⟩ :: l.drop (i + 1) := by
  induction l generalizing i with
  | nil => simp at h
  | cons x xs ih =>
    cases i with
    | zero => simp
    | succ i =>
      simp only [List.drop_succ_cons, List.get_cons_succ]
      exact ih i (Nat.lt_of_succ_lt_succ h)

/-- Behaviour of the per-channel loop when every index it touches is in
range: it emits `cmdOf` per channel and overwrites the touched segment of
the stored state with the predicate output. -/
theorem stimLoop_spec (should : List Bool) :
    ∀ (st : List Bool) (i : Nat), i + should.length ≤ st.length →
      stimLoop should st i =
        .ok (List.zipWith cmdOf should ((st.drop i).take should.length),
             st.take i ++ should ++ st.drop (i + should.length)) := by
  induction should with
  | nil =>
    intro st i _
    simp [stimLoop]
  | cons w ws ih =>
    intro st i h
    have hi : i < st.length := by simp at h; omega
    have hget : st[i]? = some (st.get ⟨i, hi⟩) := by
      simp [List.getElem?_eq_getElem hi]
    have hrec := ih (st.set i w) (i + 1) (by simp; simp at h; omega)
    simp only [stimLoop, hget, channelStep_eq]
    rw [hrec]
    have hdropset : (st.set i w).drop (i + 1) = st.drop (i + 1) :=
      drop_set_of_lt st i w (i + 1) (by omega)
    have hdropset2 : (st.set i w).drop (i + 1 + ws.length) = st.drop (i + 1 + ws.length) :=
      drop_set_of_lt st i w (i + 1 + ws.length) (by omega)
    have htakeset : (st.set i w).take (i + 1) = st.take i ++ [w] :=
      take_set_succ st i w hi
    have hdropcons : st.drop i = st.get ⟨i, hi⟩ :: st.drop (i + 1) :=
      drop_eq_cons_of_lt st i hi
    simp only [Except.map, hdropset, hdropset2, htakeset, hdropcons]
    have hlen : i + (w :: ws).length = i + 1 + ws.length := by simp; omega
    rw [hlen]
    simp [List.zipWith, List.append_assoc]

/-- When the stored state already matches the predicate output in length,
the sizing step leaves it alone (an empty state forces length 0 on both
sides, and `[False] * 0` is again the empty list). -/
theorem initializeState_of_length_eq (st should : List Bool) (h : st.length = should.length) :
    initializeState st should = st := by
  unfold initializeState
  cases st with
  | nil => simp [← h]
  | cons x xs => simp

/-- Full-call behaviour with a matched state length: one `cmdOf` command
per channel and the stored state becomes exactly the predicate output. -/
theorem stimulation_duration_matched (should st : List Bool) (h : st.length = should.length) :
    stimulation_duration should st = .ok (List.zipWith cmdOf should st, should) := by
  unfold stimulation_duration
  rw [initializeState_of_length_eq st should h]
  have := stimLoop_spec should st 0 (by omega)
  rw [this]
  simp [← h]

end Planner

/-- `Channel` (data.py lines 13-50): a channel index paired with a
stimulation amplitude. -/
structure Channel where
  channel_index : Int
  amplitude : ℚ
deriving DecidableEq

/-- One element of `RehastimData._data` (data.py line 68): the tuple
`(time, duration, channels)`.  `duration = none` is the Python `None`,
marking an open (not yet closed) stimulation event. -/
structure Entry where
  timestamp : ℚ
  duration : Option ℚ
  channels : List Channel
deriving DecidableEq

/-- `RehastimData` (data.py lines 53-305): the starting time `_t0` and the
ordered event list `_data`. -/
structure RehastimData where
  t0 : ℚ
  data : List Entry
deriving DecidableEq

namespace RehastimData

/-- `RehastimData.__init__` (data.py lines 66-68); `datetime.now()` is the
explicit argument `now`. -/
def mk_fresh (now : ℚ) : RehastimData := ⟨now, []⟩

/-- `RehastimData.add` (data.py lines 112-136).  With `channels = None` the
previous channel tuple is reused (raising if there is none); with explicit
channels the code deep-copies each channel, which is the identity on the
values recorded here.  In both cases one entry timestamped `now` is
appended. -/
def add (now : ℚ) (duration : Option ℚ) (channels : Option (List Channel))
    (s : RehastimData) : Except String RehastimData :=
  match channels with
  | none =>
    match s.data.getLast? with
    | none => .error "The first time you add data, you must specify the channels."
    | some e => .ok { s with data := s.data ++ [⟨now, duration, e.channels⟩] }
  | some cs => .ok { s with data := s.data ++ [⟨now, duration, cs⟩] }

/-- `RehastimData.stop_undefined_stimulation_duration` (data.py lines
138-150): empty log is a warning-only no-op; a closed last entry is a
no-op; otherwise the last entry is replaced in place with its duration set
to `now - timestamp`. -/
def stop_undefined_stimulation_duration (now : ℚ) (s : RehastimData) : RehastimData :=
  match s.data.getLast? with
  | none => s
  | some e =>
    if e.duration.isSome then s
    else { s with data := s.data.dropLast ++ [⟨e.timestamp, some (now - e.timestamp), e.channels⟩] }

/-- The `index` argument of `RehastimData.sample_block`: a Python `int`
(negative values count from the end) or a step-1 slice with optional
bounds. -/
inductive PyIndex where
  | idx (i : Int)
  | slice (start stop : Option Int)

/-- The value `RehastimData.sample_block` hands back: the Python `None`,
one data tuple, or a list of data tuples. -/
inductive SampleBlockResult where
  | noneResult
  | one (e : Entry)
  | many (l : List Entry)
deriving DecidableEq

/-- Python list indexing `l[i]` for an `int` index: negative indices count
from the end and out-of-range access raises `IndexError`. -/
def pyGet (l : List Entry) (i : Int) : Except String Entry :=
  let j : Int := if i < 0 then i + l.length else i
  if h : 0 ≤ j ∧ j.toNat < l.length then .ok (l.get ⟨j.toNat, h.2⟩)
  else .error "IndexError: list index out of range"

/-- Python slice-bound normalisation for a step-1 slice over a list of
length `n`: negative bounds count from the end and everything clamps into
`[0, n]`. -/
def pyClamp (n : Nat) (v : Option Int) (dflt : Nat) : Nat :=
  match v with
  | none => dflt
  | some x => if x < 0 then (max (x + n) 0).toNat else min x.toNat n

/-- Python list slicing `l[a:b]` with step 1: the elements from the
normalised start (default 0) up to the normalised stop (default `len`). -/
def pySlice (l : List Entry) (a b : Option Int) : List Entry :=
  (l.take (pyClamp l.length b l.length)).drop (pyClamp l.length a 0)

/-- `RehastimData.sample_block` (data.py lines 152-174): `None` on an empty
log, otherwise `self._data[index]`. -/
def sample_block (s : RehastimData) (index : PyIndex) : Except String SampleBlockResult :=
  if s.data = [] then .ok .noneResult
  else
    match index with
    | .idx i => (pyGet s.data i).map .one
    | .slice a b => .ok (.many (pySlice s.data a b))

/-- The shape of the numpy arrays the derived views build: `np.array` of a
flat list is one-dimensional, of a list of rows two-dimensional. -/
inductive NpArray where
  | arr1 (v : List ℚ)
  | arr2 (m : List (List ℚ))
deriving DecidableEq

/-- Column `j` of a rectangular matrix held as a list of rows. -/
def colAt (m : List (List ℚ)) (j : Nat) : List ℚ :=
  m.map fun r => r.getD j 0

/-- `np.ndarray.T` on a rectangular matrix held as a list of rows (ragged
input would make numpy itself raise, which the spec leaves as a caller
precondition). -/
def npTranspose (m : List (List ℚ)) : List (List ℚ) :=
  match m.head? with
  | none => []
  | some r => (List.range r.length).map (colAt m)

/-- `RehastimData.time` (data.py lines 176-189): elapsed seconds since
`_t0` of every entry with a concrete duration; `np.array([])` on an empty
log. -/
def time (s : RehastimData) : NpArray :=
  if s.data = [] then .arr1 []
  else .arr1 ((s.data.filter fun e => e.duration.isSome).map fun e => e.timestamp - s.t0)

/-- `RehastimData.duration_as_array` (data.py lines 191-206):
`np.array([[]])` on an empty log, otherwise the one-dimensional array of
the concrete durations in log order. -/
def duration_as_array (s : RehastimData) : NpArray :=
  if s.data = [] then .arr2 [[]]
  else .arr1 (s.data.filterMap Entry.duration)

/-- `RehastimData.amplitude_as_array` (data.py lines 208-229):
`np.array([[]])` on an empty log, otherwise the per-entry amplitude rows of
the closed entries, transposed to channels × entries.  When no entry is
closed `np.array([])` is one-dimensional, hence the extra case. -/
def amplitude_as_array (s : RehastimData) : NpArray :=
  if s.data = [] then .arr2 [[]]
  else
    let rows := (s.data.filter fun e => e.duration.isSome).map fun e =>
      e.channels.map fun c => c.amplitude
    if rows = [] then .arr1 [] else .arr2 (npTranspose rows)

/-- The dict `{"t0": ..., "data": ...}` built by `RehastimData.serialized`
(data.py lines 277-286).  `pickle.dump`/`pickle.load` round-trip this value
losslessly, so file I/O is modelled as the identity on it. -/
structure Serialized where
  t0 : ℚ
  data : List Entry
deriving DecidableEq

/-- `RehastimData.serialized` (data.py lines 277-286). -/
def serialized (s : RehastimData) : Serialized := ⟨s.t0, s.data⟩

/-- `RehastimData.deserialize` (data.py lines 288-305). -/
def deserialize (d : Serialized) : RehastimData := ⟨d.t0, d.data⟩

end RehastimData

/-!
Object-identity refinement of `RehastimData.add`.  The pure model above
cannot distinguish a reused channel tuple from a copied one, but the Python
`Channel` objects are mutable, so whether `add(duration, None)` copies or
aliases the previous channels is observable.  Here `Channel` objects live
in an explicit heap (allocation order gives the object identity) and
entries hold references into it.
-/

/-- An entry of the heap-level log: like `Entry`, but the channel tuple is
a list of references to heap-allocated `Channel` objects. -/
structure HEntry where
  timestamp : ℚ
  duration : Option ℚ
  channels : List Nat
deriving DecidableEq

/-- Heap-level `RehastimData`: the allocated `Channel` objects plus the
state of the pure model with channels as references. -/
structure HRehastimData where
  heap : List Channel
  t0 : ℚ
  data : List HEntry
deriving DecidableEq

namespace HRehastimData

/-- `RehastimData.add` (data.py lines 112-136) at heap level.  The
`channels is None` branch takes `self._data[-1][2]` itself — the very same
references, no allocation (data.py line 128) — while the explicit-channels
branch runs `deepcopy` per channel, allocating fresh objects (data.py
lines 132-135). -/
def addH (now : ℚ) (duration : Option ℚ) (channels : Option (List Channel))
    (s : HRehastimData) : Except String HRehastimData :=
  match channels with
  | none =>
    match s.data.getLast? with
    | none => .error "The first time you add data, you must specify the channels."
    | some e => .ok { s with data := s.data ++ [⟨now, duration, e.channels⟩] }
  | some cs =>
    let refs := (List.range cs.length).map fun k => s.heap.length + k
    .ok { heap := s.heap ++ cs, t0 := s.t0, data := s.data ++ [⟨now, duration, refs⟩] }

/-- Mutating the `amplitude` attribute of the `Channel` object behind
reference `r` (plain Python attribute assignment). -/
def setAmplitudeH (r : Nat) (a : ℚ) (s : HRehastimData) : HRehastimData :=
  match s.heap[r]? with
  | none => s
  | some c => { s with heap := s.heap.set r ⟨c.channel_index, a⟩ }

/-- The amplitude an observer reads through entry `entry`, channel slot
`chan`: dereference the stored channel reference in the heap. -/
def amplitudeAt (s : HRehastimData) (entry chan : Nat) : Option ℚ := do
  let e ← s.data[entry]?
  let r ← e.channels[chan]?
  let c ← s.heap[r]?
  pure c.amplitude

end HRehastimData

/-!
Operation sequences over the event log, for the reachability invariant.
-/

/-- One mutating call on a `RehastimData`: `add` or
`stop_undefined_stimulation_duration`, with the wall-clock reading it
makes. -/
inductive LogOp where
  | addOp (now : ℚ) (duration : Option ℚ) (channels : Option (List Channel))
  | stopOp (now : ℚ)

/-- Apply one call to the log.  A raising `add` mutates nothing (the raise
happens before the append), so the state after a failed call is the state
before it. -/
def applyOp (s : RehastimData) (op : LogOp) : RehastimData :=
  match op with
  | .addOp now d c => ((RehastimData.add now d c s).toOption).getD s
  | .stopOp now => RehastimData.stop_undefined_stimulation_duration now s

/-- Apply a call sequence in order, starting from `s`. -/
def runOps (s : RehastimData) (ops : List LogOp) : RehastimData :=
  ops.foldl applyOp s

/-- At most one entry of the log is open, and only the last may be: every
entry before the last has a concrete duration. -/
def openInv (s : RehastimData) : Prop :=
  ∀ e ∈ s.data.dropLast, e.duration.isSome

instance (s : RehastimData) : Decidable (openInv s) :=
  inferInstanceAs (Decidable (∀ e ∈ s.data.dropLast, e.duration.isSome))

/-- The last entry of the log, if any, is closed. -/
def lastClosed (s : RehastimData) : Bool :=
  s.data.getLast?.all fun e => e.duration.isSome

/-- Logs reachable from a fresh log when the caller never records while the
last entry is still open (every `add` is issued with the last entry
closed); `stop_undefined_stimulation_duration` may be called at any
time. -/
inductive Reachable : RehastimData → Prop where
  | init (t : ℚ) : Reachable ⟨t, []⟩
  | addStep (s s' : RehastimData) (now : ℚ) (d : Option ℚ) (c : Option (List Channel)) :
      Reachable s → lastClosed s = true → RehastimData.add now d c s = .ok s' → Reachable s'
  | stopStep (s : RehastimData) (now : ℚ) :
      Reachable s → Reachable (RehastimData.stop_undefined_stimulation_duration now s)

/-!  The claims. -/

/-- C1: every per-channel transition of the stride-based engine is
determined by the `(want, was)` pair exactly as the §4.1 table says —
`(T,F)` emits `Start(0)` (encoded `0`) and sets the flag, `(T,T)` emits
`None`, `(F,T)` emits `Stop` (encoded `-1`) and clears the flag, `(F,F)`
emits `None` — and the error branch is unreachable; for a full tick with a
length-matched state the command list is the per-channel table output and
the stored state becomes the predicate output; the 1-channel scenario
`T, T, F` yields commands `[Start(0)], [None], [Stop]` and final state
`[False]`. -/
theorem stride_transition_table :
    Planner.channelStep true false = .ok (some 0, true) ∧
    Planner.channelStep true true = .ok (none, true) ∧
    Planner.channelStep false true = .ok (some (-1), false) ∧
    Planner.channelStep false false = .ok (none, false) ∧
    (∀ w b, Planner.channelStep w b = .ok (Planner.cmdOf w b, w)) ∧
    (∀ should st, st.length = should.length →
      Planner.stimulation_duration should st =
        .ok (List.zipWith Planner.cmdOf should st, should)) ∧
    Planner.stimulation_duration [true] [] = .ok ([some 0], [true]) ∧
    Planner.stimulation_duration [true] [true] = .ok ([none], [true]) ∧
    Planner.stimulation_duration [false] [true] = .ok ([some (-1)], [false]) :=
  ⟨rfl, rfl, rfl, rfl, Planner.channelStep_eq, Planner.stimulation_duration_matched,
    rfl, rfl, rfl⟩

/-- Witness for C1: the length-matched clause applied to a concrete
2-channel tick. -/
theorem stride_transition_table_witness :
    ([false, false] : List Bool).length = ([true, false] : List Bool).length ∧
    Planner.stimulation_duration [true, false] [false, false] =
      .ok (List.zipWith Planner.cmdOf [true, false] [false, false], [true, false]) :=
  ⟨rfl, stride_transition_table.2.2.2.2.2.1 [true, false] [false, false] rfl⟩

/-- C2 evaluation: with the stored state established at 2 channels, a call
whose predicate yields only 1 boolean is silently tolerated — it returns a
1-command list and leaves the stored state misaligned at length 2 — while a
call yielding 3 booleans dies with a bare `IndexError` instead of a
configuration error. -/
theorem stride_length_mismatch_not_failfast :
    Planner.stimulation_duration [true] [false, false] = .ok ([some 0], [true, false]) ∧
    Planner.stimulation_duration [true, true, true] [false, false] =
      .error "IndexError: list index out of range" :=
  ⟨rfl, rfl⟩

/-- C9: the stored per-channel state starts empty at construction, and the
lazy sizing step of the first call produces exactly one `False` per
predicate output slot; the first call then succeeds with one command per
channel and a stored state of matching length. -/
theorem first_call_initializes_state (should : List Bool) :
    Planner.initAreStimulating = ([] : List Bool) ∧
    Planner.initializeState Planner.initAreStimulating should =
      List.replicate should.length false ∧
    (Planner.initializeState Planner.initAreStimulating should).length = should.length ∧
    ∃ out st, Planner.stimulation_duration should Planner.initAreStimulating = .ok (out, st) ∧
      st.length = should.length ∧ out.length = should.length := by
  refine ⟨rfl, rfl, by simp [Planner.initializeState, Planner.initAreStimulating], ?_⟩
  have h : Planner.stimulation_duration should [] =
      .ok (List.zipWith Planner.cmdOf should (List.replicate should.length false), should) := by
    unfold Planner.stimulation_duration
    have h0 : Planner.initializeState [] should = List.replicate should.length false := rfl
    rw [h0]
    rw [Planner.stimLoop_spec should (List.replicate should.length false) 0 (by simp)]
    simp
  exact ⟨_, should, h, rfl, by simp⟩

theorem stop_of_empty (s : RehastimData) (now : ℚ) (h : s.data.getLast? = none) :
    RehastimData.stop_undefined_stimulation_duration now s = s := by
  simp [RehastimData.stop_undefined_stimulation_duration, h]

theorem stop_of_closed (s : RehastimData) (now : ℚ) (e : Entry)
    (h : s.data.getLast? = some e) (hd : e.duration.isSome) :
    RehastimData.stop_undefined_stimulation_duration now s = s := by
  simp [RehastimData.stop_undefined_stimulation_duration, h, hd]

theorem stop_of_open (s : RehastimData) (now : ℚ) (e : Entry)
    (h : s.data.getLast? = some e) (hd : e.duration = none) :
    RehastimData.stop_undefined_stimulation_duration now s =
      { s with data := s.data.dropLast ++ [⟨e.timestamp, some (now - e.timestamp), e.channels⟩] } := by
  simp [RehastimData.stop_undefined_stimulation_duration, h, hd]

/-- C4: closing the pending entry touches at most the last entry's
duration — an empty log and a closed last entry are no-ops, and an open
last entry gets duration `now - timestamp` while its timestamp and
channels, every earlier entry, and the origin time stay untouched; the
written duration is non-negative whenever the clock did not run
backwards. -/
theorem stop_pending_frame (s : RehastimData) (now : ℚ) :
    (s.data = [] → RehastimData.stop_undefined_stimulation_duration now s = s) ∧
    (∀ e, s.data.getLast? = some e → e.duration.isSome →
      RehastimData.stop_undefined_stimulation_duration now s = s) ∧
    (∀ e, s.data.getLast? = some e → e.duration = none →
      (RehastimData.stop_undefined_stimulation_duration now s).t0 = s.t0 ∧
      (RehastimData.stop_undefined_stimulation_duration now s).data =
        s.data.dropLast ++ [⟨e.timestamp, some (now - e.timestamp), e.channels⟩] ∧
      (e.timestamp ≤ now → 0 ≤ now - e.timestamp)) := by
  refine ⟨?_, ?_, ?_⟩
  · intro h
    exact stop_of_empty s now (by simp [h])
  · intro e he hd
    exact stop_of_closed s now e he hd
  · intro e he hd
    rw [stop_of_open s now e he hd]
    exact ⟨rfl, rfl, fun hle => by linarith⟩

/-- Witness for C4: closing the single open entry of a concrete log writes
duration `3 - 1` and keeps timestamp, channels and origin time. -/
theorem stop_pending_frame_witness :
    (RehastimData.stop_undefined_stimulation_duration 3
        ⟨0, [⟨1, none, [⟨1, 2⟩]⟩]⟩).t0 = (0 : ℚ) ∧
    (RehastimData.stop_undefined_stimulation_duration 3
        ⟨0, [⟨1, none, [⟨1, 2⟩]⟩]⟩).data =
      [⟨1, some (3 - 1), [⟨1, 2⟩]⟩] ∧
    (0 : ℚ) ≤ 3 - 1 := by
  have h := (stop_pending_frame ⟨0, [⟨1, none, [⟨1, 2⟩]⟩]⟩ 3).2.2
    ⟨1, none, [⟨1, 2⟩]⟩ rfl rfl
  exact ⟨h.1, h.2.1, h.2.2 (by norm_num)⟩

/-- C8: `stop_undefined_stimulation_duration` is idempotent — the second
call right after a first one changes nothing, whatever clock value it
reads, because the first call either did nothing or left the last entry
with a concrete duration. -/
theorem stop_pending_idempotent (s : RehastimData) (now1 now2 : ℚ) :
    RehastimData.stop_undefined_stimulation_duration now2
        (RehastimData.stop_undefined_stimulation_duration now1 s) =
      RehastimData.stop_undefined_stimulation_duration now1 s := by
  cases hl : s.data.getLast? with
  | none =>
    rw [stop_of_empty s now1 hl, stop_of_empty s now2 hl]
  | some e =>
    cases hd : e.duration with
    | some d =>
      have hs : e.duration.isSome := by simp [hd]
      rw [stop_of_closed s now1 e hl hs, stop_of_closed s now2 e hl hs]
    | none =>
      rw [stop_of_open s now1 e hl hd]
      apply stop_of_closed _ now2 ⟨e.timestamp, some (now1 - e.timestamp), e.channels⟩
      · simp
      · rfl

/-- C3 evaluation: `add(duration, None)` on an empty log raises (and the
log stays untouched since the raise precedes the append); on a non-empty
log the appended entry holds the very same channel references as the
previous entry — no copy — so setting the new entry's channel amplitude to
99 also changes the amplitude observed through the prior entry. -/
theorem add_none_aliases_previous_channels :
    HRehastimData.addH 0 (some 1) none ⟨[], 0, []⟩ =
      .error "The first time you add data, you must specify the channels." ∧
    HRehastimData.addH 1 (some 1) (some [⟨1, 2⟩]) ⟨[], 0, []⟩ =
      .ok ⟨[⟨1, 2⟩], 0, [⟨1, some 1, [0]⟩]⟩ ∧
    HRehastimData.addH 2 none none ⟨[⟨1, 2⟩], 0, [⟨1, some 1, [0]⟩]⟩ =
      .ok ⟨[⟨1, 2⟩], 0, [⟨1, some 1, [0]⟩, ⟨2, none, [0]⟩]⟩ ∧
    ((⟨[⟨1, 2⟩], 0, [⟨1, some 1, [0]⟩, ⟨2, none, [0]⟩]⟩ :
        HRehastimData).data[1]?.map HEntry.channels =
      (⟨[⟨1, 2⟩], 0, [⟨1, some 1, [0]⟩, ⟨2, none, [0]⟩]⟩ :
        HRehastimData).data[0]?.map HEntry.channels) ∧
    HRehastimData.amplitudeAt ⟨[⟨1, 2⟩], 0, [⟨1, some 1, [0]⟩, ⟨2, none, [0]⟩]⟩ 0 0 = some 2 ∧
    HRehastimData.amplitudeAt
        (HRehastimData.setAmplitudeH 0 99 ⟨[⟨1, 2⟩], 0, [⟨1, some 1, [0]⟩, ⟨2, none, [0]⟩]⟩)
        1 0 = some 99 ∧
    HRehastimData.amplitudeAt
        (HRehastimData.setAmplitudeH 0 99 ⟨[⟨1, 2⟩], 0, [⟨1, some 1, [0]⟩, ⟨2, none, [0]⟩]⟩)
        0 0 = some 99 :=
  ⟨rfl, rfl, rfl, rfl, rfl, rfl, rfl⟩

/-- C5 counterexample: recording twice with `duration = None` — which
`add` accepts without complaint — reaches a log with two open entries, so
the open entry is neither unique nor necessarily last. -/
theorem open_invariant_counterexample :
    (runOps ⟨0, []⟩ [.addOp 1 none (some [⟨1, 2⟩]), .addOp 2 none none]).data =
      [⟨1, none, [⟨1, 2⟩]⟩, ⟨2, none, [⟨1, 2⟩]⟩] ∧
    ¬ openInv (runOps ⟨0, []⟩ [.addOp 1 none (some [⟨1, 2⟩]), .addOp 2 none none]) := by
  constructor
  · rfl
  · decide

theorem getLast_mem_of_getLast?_eq (l : List Entry) (e : Entry) (h : l.getLast? = some e) :
    ∀ x ∈ l, x ∈ l.dropLast ∨ x = e := by
  intro x hx
  have hne : l ≠ [] := by rintro rfl; simp at h
  have hsplit := List.dropLast_append_getLast hne
  have hval : l.getLast hne = e := by
    have h2 := List.getLast?_eq_getLast l hne
    rw [h] at h2
    exact (Option.some_injective _ h2).symm
  rw [← hsplit] at hx
  rcases List.mem_append.mp hx with h1 | h2
  · exact Or.inl h1
  · simp at h2
    exact Or.inr (h2.trans hval)

/-- C5 amended: the at-most-one-open invariant does hold for every log
reachable by sequences in which `add` is only ever called while the last
entry is closed (`stop_undefined_stimulation_duration` may be called
freely): then every entry but the last has a concrete duration. -/
theorem open_invariant_of_reachable (s : RehastimData) (h : Reachable s) : openInv s := by
  induction h with
  | init t => intro e he; simp at he
  | addStep s s' now d c hr hlast hadd ih =>
    have hall : ∀ e ∈ s.data, e.duration.isSome := by
      intro e he
      cases hl : s.data.getLast? with
      | none =>
        rw [List.getLast?_eq_none_iff] at hl
        rw [hl] at he
        simp at he
      | some last =>
        rcases getLast_mem_of_getLast?_eq s.data last hl e he with h1 | h2
        · exact ih e h1
        · subst h2
          unfold lastClosed at hlast
          rw [hl] at hlast
          simpa using hlast
    cases c with
    | none =>
      cases hl : s.data.getLast? with
      | none => simp [RehastimData.add, hl] at hadd
      | some last =>
        simp only [RehastimData.add, hl] at hadd
        cases hadd
        intro e he
        rw [List.dropLast_concat] at he
        exact hall e he
    | some cs =>
      simp only [RehastimData.add] at hadd
      cases hadd
      intro e he
      rw [List.dropLast_concat] at he
      exact hall e he
  | stopStep s now hr ih =>
    cases hl : s.data.getLast? with
    | none => rw [stop_of_empty s now hl]; exact ih
    | some e =>
      cases hd : e.duration with
      | some d => rw [stop_of_closed s now e hl (by simp [hd])]; exact ih
      | none =>
        rw [stop_of_open s now e hl hd]
        intro x hx
        rw [List.dropLast_concat] at hx
        exact ih x hx

/-- Witness for C5 amended: a log reached by one disciplined `add` of an
open entry satisfies the invariant. -/
theorem open_invariant_of_reachable_witness :
    openInv ⟨0, [⟨1, none, [⟨1, 2⟩]⟩]⟩ :=
  open_invariant_of_reachable ⟨0, [⟨1, none, [⟨1, 2⟩]⟩]⟩
    (Reachable.addStep ⟨0, []⟩ ⟨0, [⟨1, none, [⟨1, 2⟩]⟩]⟩ 1 none (some [⟨1, 2⟩])
      (Reachable.init 0) (by decide) rfl)

/-- C6: deserialising the serialised form reproduces the log exactly —
the origin time and the full ordered event sequence, entry by entry
(timestamp, duration-or-open marker, ordered channel list), open trailing
entry included, since the statement quantifies over every log. -/
theorem serialization_roundtrip (s : RehastimData) :
    RehastimData.deserialize (RehastimData.serialized s) = s ∧
    (RehastimData.deserialize (RehastimData.serialized s)).t0 = s.t0 ∧
    (RehastimData.deserialize (RehastimData.serialized s)).data = s.data ∧
    ∀ i : Nat,
      (RehastimData.deserialize (RehastimData.serialized s)).data[i]?.map Entry.timestamp =
        s.data[i]?.map Entry.timestamp ∧
      (RehastimData.deserialize (RehastimData.serialized s)).data[i]?.map Entry.duration =
        s.data[i]?.map Entry.duration ∧
      (RehastimData.deserialize (RehastimData.serialized s)).data[i]?.map Entry.channels =
        s.data[i]?.map Entry.channels :=
  ⟨rfl, rfl, rfl, fun _ => ⟨rfl, rfl, rfl⟩⟩

/-- C7: the derived read views are pure functions of the stored sequence
that keep exactly the closed entries in log order — on an empty log each
view is an explicitly empty array, and on a log of two closed 2-channel
entries followed by one trailing open entry the duration series is the two
closed durations, the time series the two closed elapsed times, and the
amplitude matrix is 2 × 2 (channels × entries). -/
theorem derived_views_closed_only (s : RehastimData) :
    (s.data = [] →
      RehastimData.time s = .arr1 [] ∧
      RehastimData.duration_as_array s = .arr2 [[]] ∧
      RehastimData.amplitude_as_array s = .arr2 [[]]) ∧
    (∀ e1 e2 e3 d1 d2, s.data = [e1, e2, e3] →
      e1.duration = some d1 → e2.duration = some d2 → e3.duration = none →
      e1.channels.length = 2 → e2.channels.length = 2 →
      RehastimData.duration_as_array s = .arr1 [d1, d2] ∧
      RehastimData.time s = .arr1 [e1.timestamp - s.t0, e2.timestamp - s.t0] ∧
      ∃ m, RehastimData.amplitude_as_array s = .arr2 m ∧ m.length = 2 ∧
        ∀ r ∈ m, r.length = 2) := by
  constructor
  · intro h
    refine ⟨?_, ?_, ?_⟩ <;>
      simp [RehastimData.time, RehastimData.duration_as_array,
        RehastimData.amplitude_as_array, h]
  · intro e1 e2 e3 d1 d2 hd h1 h2 h3 hc1 hc2
    obtain ⟨a1, b1, hab1⟩ := List.length_eq_two.mp hc1
    obtain ⟨a2, b2, hab2⟩ := List.length_eq_two.mp hc2
    refine ⟨?_, ?_, ?_⟩
    · simp [RehastimData.duration_as_array, hd, List.filterMap, h1, h2, h3]
    · simp [RehastimData.time, hd, List.filter, h1, h2, h3]
    · refine ⟨[[a1.amplitude, a2.amplitude], [b1.amplitude, b2.amplitude]], ?_, rfl, ?_⟩
      · simp [RehastimData.amplitude_as_array, hd, List.filter, h1, h2, h3, hab1, hab2,
          RehastimData.npTranspose, RehastimData.colAt, List.range_succ]
      · intro r hr
        rcases List.mem_cons.mp hr with h | h
        · rw [h]; rfl
        · rcases List.mem_cons.mp h with h' | h'
          · rw [h']; rfl
          · simp at h'

/-- Witness for C7: the concrete log of the spec scenario — closed
durations 0.5 and 0.3 with two channels each, one trailing open entry. -/
theorem derived_views_closed_only_witness :
    RehastimData.duration_as_array
        ⟨0, [⟨1, some (1/2), [⟨1, 10⟩, ⟨2, 20⟩]⟩,
             ⟨2, some (3/10), [⟨1, 11⟩, ⟨2, 21⟩]⟩,
             ⟨3, none, [⟨1, 12⟩, ⟨2, 22⟩]⟩]⟩ = .arr1 [1/2, 3/10] ∧
    RehastimData.time
        ⟨0, [⟨1, some (1/2), [⟨1, 10⟩, ⟨2, 20⟩]⟩,
             ⟨2, some (3/10), [⟨1, 11⟩, ⟨2, 21⟩]⟩,
             ⟨3, none, [⟨1, 12⟩, ⟨2, 22⟩]⟩]⟩ = .arr1 [1 - 0, 2 - 0] ∧
    ∃ m, RehastimData.amplitude_as_array
        ⟨0, [⟨1, some (1/2), [⟨1, 10⟩, ⟨2, 20⟩]⟩,
             ⟨2, some (3/10), [⟨1, 11⟩, ⟨2, 21⟩]⟩,
             ⟨3, none, [⟨1, 12⟩, ⟨2, 22⟩]⟩]⟩ = .arr2 m ∧ m.length = 2 ∧
      ∀ r ∈ m, r.length = 2 :=
  (derived_views_closed_only
      ⟨0, [⟨1, some (1/2), [⟨1, 10⟩, ⟨2, 20⟩]⟩,
           ⟨2, some (3/10), [⟨1, 11⟩, ⟨2, 21⟩]⟩,
           ⟨3, none, [⟨1, 12⟩, ⟨2, 22⟩]⟩]⟩).2
    ⟨1, some (1/2), [⟨1, 10⟩, ⟨2, 20⟩]⟩
    ⟨2, some (3/10), [⟨1, 11⟩, ⟨2, 21⟩]⟩
    ⟨3, none, [⟨1, 12⟩, ⟨2, 22⟩]⟩
    (1/2) (3/10) rfl rfl rfl rfl rfl rfl

/-- C10: `sample_block` on an empty log answers the Python `None` for every
index or slice — no exception, no empty list — and on a non-empty log hands
back the stored entry at the (possibly negative) integer index, or the
stored entries selected by a slice, unchanged. -/
theorem sample_block_spec (s : RehastimData) :
    (∀ idx, s.data = [] → RehastimData.sample_block s idx = .ok .noneResult) ∧
    (∀ (i : Nat) (e : Entry), s.data[i]? = some e →
      RehastimData.sample_block s (.idx (i : Int)) = .ok (.one e)) ∧
    (∀ (k : Nat) (e : Entry), 0 < k → k ≤ s.data.length →
      s.data[s.data.length - k]? = some e →
      RehastimData.sample_block s (.idx (-(k : Int))) = .ok (.one e)) ∧
    (∀ a b, s.data ≠ [] →
      RehastimData.sample_block s (.slice a b) =
        .ok (.many (RehastimData.pySlice s.data a b))) ∧
    (∀ a b, List.Sublist (RehastimData.pySlice s.data a b) s.data) ∧
    RehastimData.pySlice s.data none none = s.data := by
  refine ⟨?_, ?_, ?_, ?_, ?_, ?_⟩
  · intro idx h
    simp [RehastimData.sample_block, h]
  · intro i e he
    have hi : i < s.data.length := by
      by_contra hge
      rw [List.getElem?_eq_none (by omega)] at he
      exact Option.noConfusion he
    have hne : s.data ≠ [] := by
      intro h
      rw [h] at hi
      simp at hi
    have hval : s.data.get ⟨i, hi⟩ = e := by
      rw [List.getElem?_eq_getElem hi] at he
      exact Option.some_injective _ he
    simp only [RehastimData.sample_block, if_neg hne, RehastimData.pyGet]
    have hneg : ¬ ((i : Int) < 0) := by omega
    simp only [if_neg hneg]
    rw [dif_pos ⟨by omega, by simpa using hi⟩]
    simp [Except.map]
    rw [← hval]
    rfl
  · intro k e hk hkle he
    have hi : s.data.length - k < s.data.length := by omega
    have hne : s.data ≠ [] := by
      intro h
      rw [h] at hi
      simp at hi
    have hval : s.data.get ⟨s.data.length - k, hi⟩ = e := by
      rw [List.getElem?_eq_getElem hi] at he
      exact Option.some_injective _ he
    simp only [RehastimData.sample_block, if_neg hne, RehastimData.pyGet]
    have hneg : (-(k : Int)) < 0 := by omega
    simp only [if_pos hneg]
    rw [dif_pos ⟨by omega, by omega⟩]
    simp [Except.map]
    rw [← hval]
    congr 1
    omega
  · intro a b h
    simp [RehastimData.sample_block, h]
  · intro a b
    exact (List.drop_sublist _ _).trans (List.take_sublist _ _)
  · simp [RehastimData.pySlice, RehastimData.pyClamp]

/-- Witness for C10: empty-log `None` for an integer index and a slice,
plus concrete retrieval at indices `0` and `-1` of a 1-entry log. -/
theorem sample_block_spec_witness :
    RehastimData.sample_block ⟨0, []⟩ (.idx 5) = .ok .noneResult ∧
    RehastimData.sample_block ⟨0, []⟩ (.slice none none) = .ok .noneResult ∧
    RehastimData.sample_block ⟨0, [⟨1, some 1, [⟨1, 2⟩]⟩]⟩ (.idx 0) =
      .ok (.one ⟨1, some 1, [⟨1, 2⟩]⟩) ∧
    RehastimData.sample_block ⟨0, [⟨1, some 1, [⟨1, 2⟩]⟩]⟩ (.idx (-1)) =
      .ok (.one ⟨1, some 1, [⟨1, 2⟩]⟩) := by
  refine ⟨(sample_block_spec ⟨0, []⟩).1 (.idx 5) rfl,
    (sample_block_spec ⟨0, []⟩).1 (.slice none none) rfl, ?_, ?_⟩
  · exact (sample_block_spec ⟨0, [⟨1, some 1, [⟨1, 2⟩]⟩]⟩).2.1 0 ⟨1, some 1, [⟨1, 2⟩]⟩ rfl
  · have h := (sample_block_spec ⟨0, [⟨1, some 1, [⟨1, 2⟩]⟩]⟩).2.2.1 1 ⟨1, some 1, [⟨1, 2⟩]⟩
      (by omega) (by simp) rfl
    simpa using h

end LokomatFes
